import Mathlib

/-!
Shallow embedding of the core of Fast-Image-Deduplicator
(`fast_diff_py/sqlite_db.py` and `fast_diff_py/fast_dif_new.py`).

Tables of the SQLite catalog are modelled as Lean lists of rows; every SQL
statement of the source is translated into an executable list transformation
with the same semantics (`SELECT ... LIMIT n` takes the first `n` rows in
table order, `UNIQUE` violations surface as `Except.error`, comparisons with
SQL `NULL` are never true).  Floating point `REAL` columns are modelled as
rationals: the claims under study only compare them.
-/

namespace FastDifPy

/-- A row of the `directory` table (`create_directory_table_and_index`). -/
structure FileRow where
  key : Nat
  path : String
  filename : String
  error : Option String := none
  success : Int := -1
  px : Int := -1
  py : Int := -1
  dir_b : Bool := false
  hash_0 : Option Nat := none
  hash_90 : Option Nat := none
  hash_180 : Option Nat := none
  hash_270 : Option Nat := none
deriving DecidableEq

/-- `SELECT COUNT(*) FROM directory WHERE dir_b = ?` (`get_dir_entry_count`). -/
def count_dir (tbl : List FileRow) (b : Bool) : Nat :=
  (tbl.filter (fun r => r.dir_b == b)).length

/-- `os.path.join(path, f)` as used by `bulk_insert_file`. -/
def path_join (p f : String) : String := p ++ "/" ++ f

/-- Next `AUTOINCREMENT` key of the directory table: one above the largest key. -/
def next_key (tbl : List FileRow) : Nat :=
  tbl.foldl (fun m r => max m r.key) 0 + 1

/-- The fresh row built by one `INSERT INTO directory (path, filename, dir_b)`. -/
def new_file_row (tbl : List FileRow) (p fn : String) (b : Bool) : FileRow :=
  { key := next_key tbl, path := path_join p fn, filename := fn, dir_b := b }

/-- One `INSERT INTO directory (path, filename, dir_b) VALUES (?, ?, ?)`.
The table carries `UNIQUE (path, dir_b)`; a duplicate raises. -/
def insert_one_file (tbl : List FileRow) (p fn : String) (b : Bool) :
    Except String (List FileRow) :=
  if tbl.any (fun r => r.path == path_join p fn && r.dir_b == b) then
    Except.error "UNIQUE constraint failed: directory.path, directory.dir_b"
  else
    Except.ok (tbl ++ [new_file_row tbl p fn b])

/-- `SQLiteDB.bulk_insert_file`: executemany of the plain `INSERT` above. -/
def bulk_insert_file (tbl : List FileRow) (p : String) (fns : List String) (b : Bool) :
    Except String (List FileRow) :=
  fns.foldlM (fun acc fn => insert_one_file acc p fn b) tbl

/-- `AUTOINCREMENT` key assignment when rows are copied into a fresh table. -/
def renumber (start : Nat) : List FileRow → List FileRow
  | [] => []
  | r :: rest => { r with key := start } :: renumber (start + 1) rest

/-- `SQLiteDB.swap_dir_b`: rebuild the directory table, inserting the
`dir_b = 1` rows first with the label `0`, then the `dir_b = 0` rows with the
label `1`.  The `key` column is not copied; the temp table assigns fresh
autoincrement keys. -/
def swap_dir_b (tbl : List FileRow) : List FileRow :=
  renumber 1
    ((tbl.filter (fun r => r.dir_b)).map (fun r => { r with dir_b := false }) ++
     (tbl.filter (fun r => !r.dir_b)).map (fun r => { r with dir_b := true }))

/-- `FastDifPy.cond_switch_a_b`: no-op without a B root; otherwise skip when
`|A| <= |B|`, else swap the configured roots and call `swap_dir_b`. -/
def cond_switch_a_b (root_a : String) (root_b : Option String) (tbl : List FileRow) :
    String × Option String × List FileRow :=
  match root_b with
  | none => (root_a, none, tbl)
  | some rb =>
    if count_dir tbl false ≤ count_dir tbl true then (root_a, some rb, tbl)
    else (rb, some root_a, swap_dir_b tbl)

/-- `SQLiteDB.batch_of_preprocessing_args`: select up to `batch_size` rows with
`success = -1`, return their `(key, path)`, and flip the same rows to
`success = -2`. -/
def batch_of_preprocessing_args (tbl : List FileRow) (batch_size : Nat) :
    List (Nat × String) × List FileRow :=
  let sel := (tbl.filter (fun r => r.success == -1)).take batch_size
  let selKeys := sel.map (fun r => r.key)
  (sel.map (fun r => (r.key, r.path)),
   tbl.map (fun r => if selKeys.contains r.key then { r with success := -2 } else r))

/-- Lexicographic `<=` on pairs of SQL integers, the order used by the
`ORDER BY x, y` clauses of the planner. -/
def lex_le (a b : Int × Int) : Prop :=
  a.1 < b.1 ∨ (a.1 = b.1 ∧ a.2 ≤ b.2)

/-- Strict part of `lex_le`. -/
def lex_lt (a b : Int × Int) : Prop :=
  a.1 < b.1 ∨ (a.1 = b.1 ∧ a.2 < b.2)

instance : DecidableRel lex_le := fun a b => by
  unfold lex_le; exact inferInstance

instance : DecidableRel lex_lt := fun a b => by
  unfold lex_lt; exact inferInstance

/-- The sort key of `block_key_temp` insertion (`prepopulate_diff_table`):
`ORDER BY block_a, block_b` with two partitions, and
`ORDER BY (block_b - block_a), (block_b + block_a)` with one. -/
def block_sort_key (has_dir_b : Bool) (p : Nat × Nat) : Int × Int :=
  if has_dir_b then ((p.1 : Int), (p.2 : Int))
  else ((p.2 : Int) - (p.1 : Int), (p.2 : Int) + (p.1 : Int))

/-- The order in which distinct `(block_a, block_b)` pairs are inserted into
`block_key_temp`. -/
def block_le (has_dir_b : Bool) (p q : Nat × Nat) : Prop :=
  lex_le (block_sort_key has_dir_b p) (block_sort_key has_dir_b q)

instance (has_dir_b : Bool) : DecidableRel (block_le has_dir_b) := fun p q => by
  unfold block_le; exact inferInstance

/-- Position of the first occurrence of `p` in a list; `block_key_temp` keys
are this position plus one (autoincrement starts at `1`). -/
def tbl_idx : List (Nat × Nat) → (Nat × Nat) → Nat
  | [], _ => 0
  | q :: rest, p => if q = p then 0 else tbl_idx rest p + 1

/-- The `INSERT INTO dif_table (key_a, key_b) SELECT ... ORDER BY a.key, b.key`
statements of `prepopulate_diff_table`: the cross join restricted to
`a.dir_b = 0 AND b.dir_b = 1` with two partitions, and to `a.key < b.key` with
one partition. -/
def prepop_pairs (tbl : List FileRow) (has_dir_b : Bool) : List (Nat × Nat) :=
  let raw :=
    if has_dir_b then
      (tbl.filter (fun r => !r.dir_b)).flatMap
        (fun a => (tbl.filter (fun r => r.dir_b)).map (fun b => (a.key, b.key)))
    else
      tbl.flatMap (fun a => (tbl.filter (fun b => a.key < b.key)).map (fun b => (a.key, b.key)))
  List.insertionSort (block_le true) raw

/-- `SELECT MIN(key) FROM directory WHERE dir_b = 1`. -/
def min_key_b (tbl : List FileRow) : Nat :=
  match (tbl.filter (fun r => r.dir_b)).map (fun r => r.key) with
  | [] => 0
  | k :: ks => ks.foldl Nat.min k

/-- A row of `dif_table` (`create_diff_table_and_index`). -/
structure DifRow where
  key : Nat
  key_a : Nat
  key_b : Nat
  dif : ℚ := -1
  success : Int := -1
  block_a : Nat := 0
  block_b : Nat := 0
  block_key : Nat := 0
deriving DecidableEq

/-- The `block_a`/`block_b` assignment of `prepopulate_diff_table`:
`block_a = key_a / block_size`, and `block_b = (key_b - MIN(key of B)) /
block_size` with two partitions, else `key_b / block_size`. -/
def block_of (block_size mB : Nat) (has_dir_b : Bool) (p : Nat × Nat) : Nat × Nat :=
  (p.1 / block_size, if has_dir_b then (p.2 - mB) / block_size else p.2 / block_size)

/-- `SQLiteDB.prepopulate_diff_table`: insert one row per candidate pair,
assign `block_a`/`block_b`, then assign `block_key` by building the sorted
`block_key_temp` table of distinct block pairs (autoincrement keys from `1`)
and joining back. -/
def prepopulate_diff_table (tbl : List FileRow) (block_size : Nat) (has_dir_b : Bool) :
    List DifRow :=
  let prs := prepop_pairs tbl has_dir_b
  let bf := block_of block_size (min_key_b tbl) has_dir_b
  let temp := List.insertionSort (block_le has_dir_b) ((prs.map bf).dedup)
  (List.range prs.length).zip prs |>.map (fun ip =>
    { key := ip.1 + 1
      key_a := ip.2.1
      key_b := ip.2.2
      dif := -1
      success := -1
      block_a := (bf ip.2).1
      block_b := (bf ip.2).2
      block_key := tbl_idx temp (bf ip.2) + 1 })

/-- Modelled from the spec: `to_b64` of `fast_diff_py/utils.py` is not among
the provided sources; the spec says error strings are "base64-escaped" UTF-8
("base64-wrapped to survive arbitrary bytes").  Standard base64 over the
string's UTF-8 bytes. -/
def b64_alphabet : List Char :=
  "ABCDEFGHIJKLMNOPQRSTUVWXYZabcdefghijklmnopqrstuvwxyz0123456789+/".toList

/-- Base64-encode a byte list (bytes as naturals below 256). -/
def b64_encode : List Nat → List Char
  | [] => []
  | [a] =>
    [b64_alphabet.getD (a / 4) 'A', b64_alphabet.getD (a % 4 * 16) 'A', '=', '=']
  | [a, b] =>
    [b64_alphabet.getD (a / 4) 'A', b64_alphabet.getD (a % 4 * 16 + b / 16) 'A',
     b64_alphabet.getD (b % 16 * 4) 'A', '=']
  | a :: b :: c :: rest =>
    b64_alphabet.getD (a / 4) 'A' :: b64_alphabet.getD (a % 4 * 16 + b / 16) 'A' ::
    b64_alphabet.getD (b % 16 * 4 + c / 64) 'A' :: b64_alphabet.getD (c % 64) 'A' ::
    b64_encode rest

/-- Modelled from the spec: `utils.to_b64` — the base64 wrapping applied to
error messages before they are stored. -/
def to_b64 (s : String) : String :=
  String.mk (b64_encode (s.toUTF8.toList.map (fun b => b.toNat)))

/-- A first-loop result (`datatransfer_new.PreprocessResult`).  Modelled from
the spec: `datatransfer_new.py` is not among the provided sources; per spec
§4.3 a failure emits `PreprocessResult{key, error}` (hash fields null), a
success emits the original dimensions and the four rotation hashes. -/
structure PreprocessResult where
  key : Nat
  org_x : Int := -1
  org_y : Int := -1
  hash_0 : Option String := none
  hash_90 : Option String := none
  hash_180 : Option String := none
  hash_270 : Option String := none
  error : Option String := none
deriving DecidableEq

/-- A row of `hash_table` (`create_hash_table_and_index`): `hash TEXT UNIQUE`,
`count >= 0`.  `hash` is `Option` because SQL permits `NULL` in the column. -/
structure HashRow where
  key : Nat
  hash : Option String
  count : Nat
deriving DecidableEq

/-- Next autoincrement key of the hash table. -/
def hash_next_key (ht : List HashRow) : Nat :=
  ht.foldl (fun m r => max m r.key) 0 + 1

/-- One `INSERT INTO hash_table (hash, count) VALUES (?, 1) ON CONFLICT(hash)
DO UPDATE SET count = count + 1`.  SQL `NULL` never conflicts with anything,
so a `NULL` hash always inserts a fresh row. -/
def insert_one_hash (ht : List HashRow) (h : Option String) : List HashRow :=
  match h with
  | none => ht ++ [{ key := hash_next_key ht, hash := none, count := 1 }]
  | some s =>
    if ht.any (fun r => r.hash == some s) then
      ht.map (fun r => if r.hash == some s then { r with count := r.count + 1 } else r)
    else ht ++ [{ key := hash_next_key ht, hash := some s, count := 1 }]

/-- `SQLiteDB.bulk_insert_hashes`. -/
def bulk_insert_hashes (ht : List HashRow) (hs : List (Option String)) : List HashRow :=
  hs.foldl insert_one_hash ht

/-- `SELECT key FROM hash_table WHERE hash = ?`: comparison with `NULL` is
never true, so a `none` argument finds nothing. -/
def lookup_hash (ht : List HashRow) (h : Option String) : Option Nat :=
  match h with
  | none => none
  | some s => (ht.find? (fun r => r.hash == some s)).map (fun r => r.key)

/-- `SQLiteDB.get_bulk_hash_lookup`: looks every hash up and asserts
`res is not None, "Hash not found"`. -/
def get_bulk_hash_lookup (ht : List HashRow) (hs : List (Option String)) :
    Except String (List (Option String × Nat)) :=
  hs.foldlM (fun acc h =>
    match lookup_hash ht h with
    | none => Except.error "Hash not found"
    | some k => Except.ok (acc ++ [(h, k)])) []

/-- `SQLiteDB.batch_of_first_loop_results` as one pass over the directory
table: an error result stores the base64 message and `success = 0`; a success
stores `px`, `py`, `success = 1` and (when hashing) the four hash foreign
keys produced by `lk`. -/
def first_loop_apply (tbl : List FileRow) (lk : Option String → Option Nat)
    (has_hash : Bool) (results : List PreprocessResult) : List FileRow :=
  tbl.map (fun r =>
    match results.find? (fun res => res.key == r.key) with
    | none => r
    | some res =>
      match res.error with
      | some e => { r with error := some (to_b64 e), success := 0 }
      | none =>
        if has_hash then
          { r with px := res.org_x, py := res.org_y, success := 1,
                   hash_0 := lk res.hash_0, hash_90 := lk res.hash_90,
                   hash_180 := lk res.hash_180, hash_270 := lk res.hash_270 }
        else { r with px := res.org_x, py := res.org_y, success := 1 })

/-- `FastDifPy.store_batch_first_loop`: with hashing, extract the four hash
fields of EVERY result (error results included), upsert them into the hash
table, look all of them back up (`get_bulk_hash_lookup`), rewrite results to
integer keys, then apply `batch_of_first_loop_results`. -/
def store_batch_first_loop (compute_hash : Bool) (ht : List HashRow)
    (tbl : List FileRow) (results : List PreprocessResult) :
    Except String (List HashRow × List FileRow) :=
  if compute_hash then
    let hashes := results.flatMap (fun r => [r.hash_0, r.hash_90, r.hash_180, r.hash_270])
    let ht2 := bulk_insert_hashes ht hashes
    match get_bulk_hash_lookup ht2 hashes with
    | Except.error e => Except.error e
    | Except.ok lk =>
      Except.ok (ht2,
        first_loop_apply tbl
          (fun h => (lk.find? (fun p => p.1 == h)).map (fun p => p.2)) true results)
  else
    Except.ok (ht, first_loop_apply tbl (fun _ => none) false results)

/-- `SELECT ... FROM directory WHERE key = ?` (the joins below). -/
def find_file (tbl : List FileRow) (k : Nat) : Option FileRow :=
  tbl.find? (fun r => r.key == k)

/-- One row of `SQLiteDB.get_item_block`'s result set. -/
structure ItemBlockRow where
  key : Nat
  key_a : Nat
  key_b : Nat
  path_a : String
  path_b : String
  block_key : Nat
deriving DecidableEq

/-- `SQLiteDB.get_item_block`: the pairs of a block that still have
`success = -1`, joined twice against the directory table for the paths. -/
def get_item_block (dif_tbl : List DifRow) (dir_tbl : List FileRow) (block_key : Nat) :
    List ItemBlockRow :=
  (dif_tbl.filter (fun d => d.block_key == block_key && d.success == -1)).filterMap
    (fun d =>
      match find_file dir_tbl d.key_a, find_file dir_tbl d.key_b with
      | some a, some b =>
        some { key := d.key, key_a := d.key_a, key_b := d.key_b,
               path_a := a.path, path_b := b.path, block_key := d.block_key }
      | _, _ => none)

/-- `datatransfer_new.ItemCompareArgs` as enqueued by `FastDifPy.__item_block`. -/
structure ItemCompareArgs where
  key : Nat
  key_a : Nat
  key_b : Nat
  path_a : String
  path_b : String
  cache_key : Option Nat := none
deriving DecidableEq

/-- `FastDifPy.__item_block` (argument-building part): every row returned by
`get_item_block` is wrapped into `ItemCompareArgs` and enqueued; the
`cache_key` is set only when the ram cache is in use.  No hash or aspect-ratio
short-circuit exists on this path. -/
def item_block_args (dif_tbl : List DifRow) (dir_tbl : List FileRow)
    (cache_index : Nat) (use_ram_cache : Bool) : List ItemCompareArgs :=
  (get_item_block dif_tbl dir_tbl cache_index).map
    (fun t => { key := t.key, key_a := t.key_a, key_b := t.key_b,
                path_a := t.path_a, path_b := t.path_b,
                cache_key := if use_ram_cache then some t.block_key else none })

/-- `datatransfer_new.ItemCompareResult` (shape per spec §4.6). -/
structure ItemCompareResult where
  key : Nat
  diff : ℚ := -1
  error : Option String := none
deriving DecidableEq

/-- `datatransfer_new.BatchCompareResult` (shape per spec §4.6). -/
structure BatchCompareResult where
  key : Nat
  key_a : Nat
  key_b : Nat
  diff : List ℚ := []
  errors : List (Nat × String) := []
  cache_key : Option Nat := none
deriving DecidableEq

/-- `FastDifPy.dequeue_second_loop_item`: consume the result queue while it is
non-empty and `_dequeue_counter + (batch_size ** 2) * 2 < _enqueue_counter` or
draining.  `_dequeue_counter` is only updated after the loop, so `deq` is
constant inside.  A `None` entry is a worker-exit sentinel and yields no
result.  Returns the consumed results and the remaining queue. -/
def dequeue_second_loop_item (batch_size enq deq : Nat) (drain : Bool) :
    List (Option ItemCompareResult) →
      List ItemCompareResult × List (Option ItemCompareResult)
  | [] => ([], [])
  | r :: rest =>
    if deq + batch_size ^ 2 * 2 < enq || drain then
      match r with
      | none => dequeue_second_loop_item batch_size enq deq drain rest
      | some res =>
        let p := dequeue_second_loop_item batch_size enq deq drain rest
        (res :: p.1, p.2)
    else ([], r :: rest)

/-- `FastDifPy.dequeue_second_loop_batch`: consume the result queue while it is
non-empty and `_dequeue_counter + batch_size * len(handles) < _enqueue_counter`
or draining; here `_dequeue_counter` advances with every consumed result. -/
def dequeue_second_loop_batch (batch_size handles enq : Nat) (drain : Bool) :
    Nat → List (Option BatchCompareResult) →
      List BatchCompareResult × List (Option BatchCompareResult)
  | _, [] => ([], [])
  | deq, r :: rest =>
    if deq + batch_size * handles < enq || drain then
      match r with
      | none => dequeue_second_loop_batch batch_size handles enq drain deq rest
      | some res =>
        let p := dequeue_second_loop_batch batch_size handles enq drain (deq + 1) rest
        (res :: p.1, p.2)
    else ([], r :: rest)

/-- `SQLiteDB.insert_batch_diff_error`: flip `success = 0` for every keyed
pair and append `(key, to_b64(msg))` to `dif_error_table`. -/
def insert_batch_diff_error (dif_tbl : List DifRow) (err_tbl : List (Nat × String))
    (errors : List (Nat × String)) : List DifRow × List (Nat × String) :=
  (dif_tbl.map (fun d =>
      if (errors.map (fun e => e.1)).contains d.key then { d with success := 0 } else d),
   err_tbl ++ errors.map (fun e => (e.1, to_b64 e.2)))

/-- The row selection of `SQLiteDB.get_duplicate_pairs` and
`SQLiteDB.get_cluster`: `WHERE dif < ? AND d.success = 1`. -/
def dup_rows (dif_tbl : List DifRow) (delta : ℚ) : List DifRow :=
  dif_tbl.filter (fun d => d.dif < delta && d.success == 1)

/-- Sort order of a dif row for `ORDER BY key_a, key_b` (`by_a = true`) or
`ORDER BY key_b, key_a` (`by_a = false`). -/
def dif_order (by_a : Bool) (d e : DifRow) : Prop :=
  if by_a then lex_le ((d.key_a : Int), (d.key_b : Int)) ((e.key_a : Int), (e.key_b : Int))
  else lex_le ((d.key_b : Int), (d.key_a : Int)) ((e.key_b : Int), (e.key_a : Int))

instance (by_a : Bool) : DecidableRel (dif_order by_a) := fun d e => by
  unfold dif_order; exact inferInstance

/-- `SQLiteDB.get_duplicate_pairs`: the selected rows ordered by
`(key_a, key_b)`, joined to `(path_a, path_b, dif)`. -/
def get_duplicate_pairs (dif_tbl : List DifRow) (dir_tbl : List FileRow) (delta : ℚ) :
    List (String × String × ℚ) :=
  (List.insertionSort (dif_order true) (dup_rows dif_tbl delta)).filterMap
    (fun d =>
      match find_file dir_tbl d.key_a, find_file dir_tbl d.key_b with
      | some a, some b => some (a.path, b.path, d.dif)
      | _, _ => none)

/-- The joined, ordered row stream that `SQLiteDB.get_cluster` iterates. -/
def cluster_rows (dif_tbl : List DifRow) (dir_tbl : List FileRow) (delta : ℚ)
    (group_a : Bool) : List (String × String × ℚ) :=
  (List.insertionSort (dif_order group_a) (dup_rows dif_tbl delta)).filterMap
    (fun d =>
      match find_file dir_tbl d.key_a, find_file dir_tbl d.key_b with
      | some a, some b => some (a.path, b.path, d.dif)
      | _, _ => none)

/-- The grouping key of a row in `get_cluster`: `row[0]` when grouping by
side A, `row[1]` otherwise. -/
def cluster_head (group_a : Bool) (r : String × String × ℚ) : String :=
  if group_a then r.1 else r.2.1

/-- Projection of an accumulated row into the member dictionary of a cluster. -/
def cluster_member (group_a : Bool) (r : String × String × ℚ) : String × ℚ :=
  if group_a then (r.2.1, r.2.2) else (r.1, r.2.2)

/-- The accumulation loop of `SQLiteDB.get_cluster`: `head` is the current
grouping key, `acc` the rows gathered for it; a row with a new key emits the
finished cluster. -/
def gather_clusters (group_a : Bool) (head : String) (acc : List (String × String × ℚ)) :
    List (String × String × ℚ) → List (String × List (String × ℚ))
  | [] => [(head, acc.map (cluster_member group_a))]
  | r :: rest =>
    if cluster_head group_a r == head then gather_clusters group_a head (acc ++ [r]) rest
    else (head, acc.map (cluster_member group_a)) :: gather_clusters group_a (cluster_head group_a r) [r] rest

/-- `SQLiteDB.get_cluster`: a generator; when the very first fetch is empty it
returns without yielding, otherwise it groups consecutive rows sharing the
grouping key. -/
def get_cluster (dif_tbl : List DifRow) (dir_tbl : List FileRow) (delta : ℚ)
    (group_a : Bool) : List (String × List (String × ℚ)) :=
  match cluster_rows dif_tbl dir_tbl delta group_a with
  | [] => []
  | r :: rest => gather_clusters group_a (cluster_head group_a r) [r] rest

/-! ## Helper lemmas -/

/-- Renumbering keys does not touch path or partition label. -/
theorem renumber_map_path_dir_b (s : Nat) (l : List FileRow) :
    (renumber s l).map (fun r => (r.path, r.dir_b)) = l.map (fun r => (r.path, r.dir_b)) := by
  induction l generalizing s with
  | nil => rfl
  | cons r rest ih => simp [renumber, ih]

/-- `swap_dir_b` permutes the `(path, partition)` pairs of the table, with
every partition label flipped. -/
theorem swap_dir_b_perm (tbl : List FileRow) :
    ((swap_dir_b tbl).map (fun r => (r.path, r.dir_b))).Perm
      (tbl.map (fun r => (r.path, !r.dir_b))) := by
  unfold swap_dir_b
  rw [renumber_map_path_dir_b, List.map_append, List.map_map, List.map_map]
  have h1 : (tbl.filter (fun r => r.dir_b)).map
        ((fun r => (r.path, r.dir_b)) ∘ (fun r => { r with dir_b := false })) =
      (tbl.filter (fun r => r.dir_b)).map (fun r => (r.path, !r.dir_b)) := by
    apply List.map_congr_left
    intro r hr
    have hb : r.dir_b = true := by simpa using (List.mem_filter.mp hr).2
    simp [hb]
  have h2 : (tbl.filter (fun r => !r.dir_b)).map
        ((fun r => (r.path, r.dir_b)) ∘ (fun r => { r with dir_b := true })) =
      (tbl.filter (fun r => !r.dir_b)).map (fun r => (r.path, !r.dir_b)) := by
    apply List.map_congr_left
    intro r hr
    have hb : r.dir_b = false := by simpa using (List.mem_filter.mp hr).2
    simp [hb]
  rw [h1, h2, ← List.map_append]
  exact (List.filter_append_perm (fun r => r.dir_b) tbl).map _

/-! ## C1 — partition swap condition -/

/-- Directory table with one A-file and two B-files (`|A| = 1 < 2 = |B|`). -/
def tbl_c1 : List FileRow :=
  [{ key := 1, path := "A/x", filename := "x" },
   { key := 2, path := "B/y", filename := "y", dir_b := true },
   { key := 3, path := "B/z", filename := "z", dir_b := true }]

/-- C1, counterexample: with `|B| = 2 > 1 = |A|` the claim demands a swap, but
`cond_switch_a_b` leaves roots and table unchanged (it swaps only when
`|A| > |B|`); swapping would have changed the table, so no swap happened. -/
theorem c1_counterexample :
    cond_switch_a_b "A" (some "B") tbl_c1 = ("A", some "B", tbl_c1) ∧
    count_dir tbl_c1 false < count_dir tbl_c1 true ∧
    swap_dir_b tbl_c1 ≠ tbl_c1 := by
  refine ⟨by decide, by decide, by decide⟩

/-- C1, amended: in two-partition mode the swap is performed iff `|A| > |B|`.
When `|A| <= |B|` (in particular whenever `|B| > |A|`) nothing changes; when
`|A| > |B|` the configured roots are exchanged and `swap_dir_b` rebuilds the
table with every file entry's partition label flipped (fresh keys). -/
theorem c1_cond_switch_a_b_spec (root_a rb : String) (tbl : List FileRow) :
    (count_dir tbl false ≤ count_dir tbl true →
      cond_switch_a_b root_a (some rb) tbl = (root_a, some rb, tbl)) ∧
    (count_dir tbl true < count_dir tbl false →
      cond_switch_a_b root_a (some rb) tbl = (rb, some root_a, swap_dir_b tbl) ∧
      ((swap_dir_b tbl).map (fun r => (r.path, r.dir_b))).Perm
        (tbl.map (fun r => (r.path, !r.dir_b)))) ∧
    cond_switch_a_b root_a none tbl = (root_a, none, tbl) := by
  refine ⟨fun h => ?_, fun h => ⟨?_, swap_dir_b_perm tbl⟩, rfl⟩
  · simp [cond_switch_a_b, h]
  · simp [cond_switch_a_b, not_le.mpr h]

/-- C1 witness: a concrete table with `|A| = 2 > 1 = |B|`; the amended theorem
applies and the swap fires. -/
def tbl_c1w : List FileRow :=
  [{ key := 1, path := "A/x", filename := "x" },
   { key := 2, path := "A/y", filename := "y" },
   { key := 3, path := "B/z", filename := "z", dir_b := true }]

theorem c1_witness :
    count_dir tbl_c1w true < count_dir tbl_c1w false ∧
    cond_switch_a_b "A" (some "B") tbl_c1w = ("B", some "A", swap_dir_b tbl_c1w) := by
  refine ⟨by decide, ((c1_cond_switch_a_b_spec "A" "B" tbl_c1w).2.1 (by decide)).1⟩

/-! ## C6 — bulk_insert_file and duplicates -/

/-- Table already holding `("p/f", partition A)`. -/
def tbl_c6 : List FileRow := [{ key := 1, path := "p/f", filename := "f" }]

/-- C6, counterexample: re-inserting an existing `(path, partition)` raises a
uniqueness-constraint error — the plain `INSERT` has no `OR IGNORE` — instead
of leaving the table unchanged without error as claimed. -/
theorem c6_counterexample :
    bulk_insert_file tbl_c6 "p" ["f"] false =
      Except.error "UNIQUE constraint failed: directory.path, directory.dir_b" := by
  rfl

/-- Unfolding one step of `bulk_insert_file` when the head conflicts. -/
theorem bulk_insert_file_cons_conflict {tbl : List FileRow} {p f0 : String} {b : Bool}
    (rest : List String)
    (hc : tbl.any (fun r => r.path == path_join p f0 && r.dir_b == b) = true) :
    bulk_insert_file tbl p (f0 :: rest) b =
      Except.error "UNIQUE constraint failed: directory.path, directory.dir_b" := by
  simp only [bulk_insert_file, List.foldlM_cons, insert_one_file, hc, if_true]
  rfl

/-- Unfolding one step of `bulk_insert_file` when the head is fresh. -/
theorem bulk_insert_file_cons_fresh {tbl : List FileRow} {p f0 : String} {b : Bool}
    (rest : List String)
    (hc : tbl.any (fun r => r.path == path_join p f0 && r.dir_b == b) = false) :
    bulk_insert_file tbl p (f0 :: rest) b =
      bulk_insert_file (tbl ++ [new_file_row tbl p f0 b]) p rest b := by
  simp only [bulk_insert_file, List.foldlM_cons, insert_one_file, hc, Bool.false_eq_true,
    if_false]
  rfl

/-- One conflicting filename in a batch forces the whole call into the error
branch, whatever was inserted before it. -/
theorem bulk_insert_file_error_of_conflict (p : String) (b : Bool) :
    ∀ (fns : List String) (tbl : List FileRow),
      (∃ fn ∈ fns, ∃ r ∈ tbl, r.path = path_join p fn ∧ r.dir_b = b) →
      ∃ msg, bulk_insert_file tbl p fns b = Except.error msg := by
  intro fns
  induction fns with
  | nil => intro tbl h; simp at h
  | cons f0 rest ih =>
    intro tbl h
    rcases hc : tbl.any (fun r => r.path == path_join p f0 && r.dir_b == b) with _ | _
    · obtain ⟨fn, hfn, r, hr, hp, hb⟩ := h
      have hfn' : fn ∈ rest := by
        rcases List.mem_cons.mp hfn with rfl | h'
        · have : tbl.any (fun r => r.path == path_join p fn && r.dir_b == b) = true :=
            List.any_eq_true.mpr ⟨r, hr, by simp [hp, hb]⟩
          rw [this] at hc
          exact absurd hc (by simp)
        · exact h'
      rw [bulk_insert_file_cons_fresh rest hc]
      exact ih _ ⟨fn, hfn', r, List.mem_append_left _ hr, hp, hb⟩
    · exact ⟨_, bulk_insert_file_cons_conflict rest hc⟩

/-- Fresh `(path, partition)` pairs are appended in order. -/
theorem bulk_insert_file_ok_of_fresh (p : String) (b : Bool) :
    ∀ (fns : List String) (tbl : List FileRow),
      (fns.map (path_join p)).Nodup →
      (∀ fn ∈ fns, ∀ r ∈ tbl, ¬(r.path = path_join p fn ∧ r.dir_b = b)) →
      ∃ new, bulk_insert_file tbl p fns b = Except.ok (tbl ++ new) ∧
        new.map (fun r => (r.path, r.filename, r.dir_b)) =
          fns.map (fun fn => (path_join p fn, fn, b)) := by
  intro fns
  induction fns with
  | nil => exact fun tbl _ _ => ⟨[], by simp [bulk_insert_file]; rfl, rfl⟩
  | cons f0 rest ih =>
    intro tbl hnd hfresh
    have hc : tbl.any (fun r => r.path == path_join p f0 && r.dir_b == b) = false := by
      rw [List.any_eq_false]
      intro r hr
      have := hfresh f0 (by simp) r hr
      simp only [Bool.and_eq_true, beq_iff_eq]
      tauto
    have hnd' : (rest.map (path_join p)).Nodup := (List.nodup_cons.mp hnd).2
    have hfresh' : ∀ fn ∈ rest, ∀ r ∈ tbl ++ [new_file_row tbl p f0 b],
        ¬(r.path = path_join p fn ∧ r.dir_b = b) := by
      intro fn hfn r hr
      rcases List.mem_append.mp hr with hr' | hr'
      · exact hfresh fn (by simp [hfn]) r hr'
      · have hre : r = new_file_row tbl p f0 b := by simpa using hr'
        subst hre
        intro hcon
        have hne : path_join p f0 ≠ path_join p fn := by
          intro he
          exact (List.nodup_cons.mp hnd).1 (he ▸ List.mem_map_of_mem (path_join p) hfn)
        have hcon' : path_join p f0 = path_join p fn := hcon.1
        exact hne hcon'
    obtain ⟨new', hok, hmap⟩ := ih _ hnd' hfresh'
    refine ⟨new_file_row tbl p f0 b :: new', ?_, by simp [hmap, new_file_row]⟩
    rw [bulk_insert_file_cons_fresh rest hc, hok]
    simp

/-- C6, amended: `bulk_insert_files` appends every entry whose
`(path, partition)` is fresh; an entry whose `(path, partition)` already
exists makes the call raise a uniqueness-constraint error (the table is not
silently kept unchanged). -/
theorem c6_bulk_insert_file_spec (tbl : List FileRow) (p : String)
    (fns : List String) (b : Bool) :
    ((fns.map (path_join p)).Nodup →
      (∀ fn ∈ fns, ∀ r ∈ tbl, ¬(r.path = path_join p fn ∧ r.dir_b = b)) →
      ∃ new, bulk_insert_file tbl p fns b = Except.ok (tbl ++ new) ∧
        new.map (fun r => (r.path, r.filename, r.dir_b)) =
          fns.map (fun fn => (path_join p fn, fn, b))) ∧
    ((∃ fn ∈ fns, ∃ r ∈ tbl, r.path = path_join p fn ∧ r.dir_b = b) →
      ∃ msg, bulk_insert_file tbl p fns b = Except.error msg) :=
  ⟨fun h1 h2 => bulk_insert_file_ok_of_fresh p b fns tbl h1 h2,
   fun h => bulk_insert_file_error_of_conflict p b fns tbl h⟩

theorem c6_witness :
    ((["f"].map (path_join "p")).Nodup ∧
      ∀ fn ∈ ["f"], ∀ r ∈ ([] : List FileRow), ¬(r.path = path_join "p" fn ∧ r.dir_b = false)) ∧
    ∃ new, bulk_insert_file [] "p" ["f"] false = Except.ok ([] ++ new) ∧
      new.map (fun r => (r.path, r.filename, r.dir_b)) =
        ["f"].map (fun fn => (path_join "p" fn, fn, false)) :=
  ⟨⟨by decide, by simp⟩,
   (c6_bulk_insert_file_spec [] "p" ["f"] false).1 (by decide) (by simp)⟩

/-! ## C4 — hash short-circuit in item mode -/

/-- Two preprocessed files that share all four rotation hashes. -/
def dir_c4 : List FileRow :=
  [{ key := 0, path := "a/x.jpg", filename := "x.jpg", success := 1, px := 10, py := 10,
     hash_0 := some 7, hash_90 := some 8, hash_180 := some 9, hash_270 := some 10 },
   { key := 1, path := "a/y.jpg", filename := "y.jpg", success := 1, px := 10, py := 10,
     hash_0 := some 7, hash_90 := some 8, hash_180 := some 9, hash_270 := some 10 }]

/-- The single pair of the two files, unprocessed, in block 1. -/
def dif_c4 : List DifRow :=
  [{ key := 1, key_a := 0, key_b := 1, dif := -1, success := -1,
     block_a := 0, block_b := 1, block_key := 1 }]

/-- C4, evaluation at the failing input: both files share every rotation hash,
yet `__item_block` builds and enqueues an `ItemCompareArgs` for their pair —
the item path reads neither `skip_matching_hash` nor any hash column, and no
`dif=0, success=1` marking exists anywhere on it (`sqlite_db.py` carries only
a TODO for that short-circuit). -/
theorem c4_matching_hash_pair_is_dispatched :
    item_block_args dif_c4 dir_c4 1 false =
      [{ key := 1, key_a := 0, key_b := 1, path_a := "a/x.jpg", path_b := "a/y.jpg",
         cache_key := none }] ∧
    (find_file dir_c4 0).bind (fun r => r.hash_0) = some 7 ∧
    (find_file dir_c4 1).bind (fun r => r.hash_0) = some 7 := by
  refine ⟨rfl, rfl, rfl⟩

/-! ## C5 — second-loop dequeue thresholds -/

/-- The remaining queue after an item-mode dequeue is never longer than the
input queue. -/
theorem dequeue_item_rem_length_le (bs enq deq : Nat) (drain : Bool) :
    ∀ q, ((dequeue_second_loop_item bs enq deq drain q).2).length ≤ q.length := by
  intro q
  induction q with
  | nil => simp [dequeue_second_loop_item]
  | cons r rest ih =>
    simp only [dequeue_second_loop_item]
    split
    · cases r with
      | none => exact le_trans ih (by simp)
      | some res => simpa using le_trans ih (by simp)
    · simp

/-- The remaining queue after a batch-mode dequeue is never longer than the
input queue. -/
theorem dequeue_batch_rem_length_le (bs handles enq : Nat) (drain : Bool) :
    ∀ q (deq : Nat), ((dequeue_second_loop_batch bs handles enq drain deq q).2).length ≤ q.length := by
  intro q
  induction q with
  | nil => intro deq; simp [dequeue_second_loop_batch]
  | cons r rest ih =>
    intro deq
    simp only [dequeue_second_loop_batch]
    split
    · cases r with
      | none => exact le_trans (ih deq) (by simp)
      | some res => simpa using le_trans (ih (deq + 1)) (by simp)
    · simp

/-- C5, amended: the constants are attached the other way round — the ITEM
dequeue consumes (when not draining) exactly while the backlog
`enqueued - dequeued` exceeds `(batch_size ** 2) * 2`, and the BATCH dequeue
exactly while it exceeds `batch_size * len(handles)`. -/
theorem c5_dequeue_thresholds (bs handles enq deq : Nat)
    (qi : List (Option ItemCompareResult)) (qb : List (Option BatchCompareResult)) :
    ((dequeue_second_loop_item bs enq deq false qi).2 ≠ qi ↔
      qi ≠ [] ∧ deq + bs ^ 2 * 2 < enq) ∧
    ((dequeue_second_loop_batch bs handles enq false deq qb).2 ≠ qb ↔
      qb ≠ [] ∧ deq + bs * handles < enq) := by
  constructor
  · cases qi with
    | nil => simp [dequeue_second_loop_item]
    | cons r rest =>
      by_cases h : deq + bs ^ 2 * 2 < enq
      · have hrem : (dequeue_second_loop_item bs enq deq false (r :: rest)).2 =
            (dequeue_second_loop_item bs enq deq false rest).2 := by
          cases r with
          | none => simp [dequeue_second_loop_item, h]
          | some res => simp [dequeue_second_loop_item, h]
        have hne : (dequeue_second_loop_item bs enq deq false (r :: rest)).2 ≠ r :: rest := by
          intro he
          have hl := dequeue_item_rem_length_le bs enq deq false rest
          rw [← hrem, he] at hl
          simp at hl
        exact ⟨fun _ => ⟨by simp, h⟩, fun _ => hne⟩
      · simp [dequeue_second_loop_item, h]
  · cases qb with
    | nil => simp [dequeue_second_loop_batch]
    | cons r rest =>
      by_cases h : deq + bs * handles < enq
      · have hne : (dequeue_second_loop_batch bs handles enq false deq (r :: rest)).2 ≠ r :: rest := by
          cases r with
          | none =>
            have hrem : (dequeue_second_loop_batch bs handles enq false deq (none :: rest)).2 =
                (dequeue_second_loop_batch bs handles enq false deq rest).2 := by
              simp [dequeue_second_loop_batch, h]
            intro he
            have hl := dequeue_batch_rem_length_le bs handles enq false rest deq
            rw [← hrem, he] at hl
            simp at hl
          | some res =>
            have hrem : (dequeue_second_loop_batch bs handles enq false deq (some res :: rest)).2 =
                (dequeue_second_loop_batch bs handles enq false (deq + 1) rest).2 := by
              simp [dequeue_second_loop_batch, h]
            intro he
            have hl := dequeue_batch_rem_length_le bs handles enq false rest (deq + 1)
            rw [← hrem, he] at hl
            simp at hl
        exact ⟨fun _ => ⟨by simp, h⟩, fun _ => hne⟩
      · simp [dequeue_second_loop_batch, h]

/-- A concrete item-mode comparison result. -/
def item_res_c5 : ItemCompareResult := { key := 0, diff := 0 }

/-- C5, counterexample: with `batch_size = 1`, `len(handles) = 5`,
`enqueued = 4`, `dequeued = 0` and no draining, the item-mode dequeue consumes
a result although the backlog (4) does not exceed the claimed item threshold
`batch_size * len(handles) = 5` — it uses `(batch_size ** 2) * 2 = 2` instead,
so the claim assigns the two constants to the wrong modes. -/
theorem c5_counterexample :
    (dequeue_second_loop_item 1 4 0 false [some item_res_c5]).1 = [item_res_c5] ∧
    ¬(0 + 1 * 5 < 4) := by
  refine ⟨rfl, by decide⟩

/-! ## C7 — hash bookkeeping of the first loop -/

/-- A successful preprocess result with four rotation hashes. -/
def res_c7_ok : PreprocessResult :=
  { key := 0, org_x := 10, org_y := 10, hash_0 := some "h0", hash_90 := some "h1",
    hash_180 := some "h2", hash_270 := some "h3" }

/-- A failed preprocess result: per spec §4.3 it carries only key and error,
its hash fields are null. -/
def res_c7_err : PreprocessResult := { key := 1, error := some "decode failed" }

/-- The catalog before the batch is stored. -/
def dir_c7 : List FileRow :=
  [{ key := 0, path := "a/x", filename := "x" },
   { key := 1, path := "a/y", filename := "y" }]

/-- C7, evaluation at the failing input: storing a first-loop batch that
contains one success and one error result with hashing enabled fails with
"Hash not found" — the error result's four `NULL` hashes are inserted as
fresh `NULL` rows which `SELECT key FROM hash_table WHERE hash = ?` can never
match, so `get_bulk_hash_lookup`'s assertion fires and the claimed invariant
is never established for mixes containing a failure. -/
theorem c7_store_batch_crashes_on_error_result :
    store_batch_first_loop true [] dir_c7 [res_c7_ok, res_c7_err] =
      Except.error "Hash not found" := by
  rfl

/-! ## C9 — comparison errors and the duplicate query surface -/

/-- C9: `record_errors` flips `success = 0` on every keyed pair row and
appends `(key, base64(msg))` to the pair-error table; and the duplicate
query surface (`get_duplicate_pairs` maps exactly the rows of `dup_rows`)
only ever selects rows with `success = 1`, so no failed pair appears in it. -/
theorem c9_record_errors_spec (dif_tbl : List DifRow) (err_tbl errors : List (Nat × String))
    (delta : ℚ) :
    (∀ d ∈ dif_tbl, d.key ∈ errors.map (fun e => e.1) →
      { d with success := 0 } ∈ (insert_batch_diff_error dif_tbl err_tbl errors).1) ∧
    (∀ e ∈ errors, (e.1, to_b64 e.2) ∈ (insert_batch_diff_error dif_tbl err_tbl errors).2) ∧
    (∀ d ∈ dup_rows dif_tbl delta, d.success = 1) := by
  refine ⟨?_, ?_, ?_⟩
  · intro d hd hkey
    have hcont : (errors.map (fun e => e.1)).contains d.key = true := by simp [hkey]
    have : (fun d => if (errors.map (fun e => e.1)).contains d.key then
        { d with success := 0 } else d) d = { d with success := 0 } := by
      simp only [hcont, if_true]
    exact this ▸ List.mem_map_of_mem _ hd
  · intro e he
    exact List.mem_append_right _ (List.mem_map_of_mem _ he)
  · intro d hd
    have h := (List.mem_filter.mp hd).2
    simp only [Bool.and_eq_true, beq_iff_eq] at h
    exact h.2

/-- Concrete failed pair and error message for the C9 witness. -/
def dif_c9 : List DifRow :=
  [{ key := 3, key_a := 0, key_b := 1, dif := -1, success := -1,
     block_a := 0, block_b := 0, block_key := 1 }]

theorem c9_witness :
    ({ key := 3, key_a := 0, key_b := 1, dif := -1, success := 0,
       block_a := 0, block_b := 0, block_key := 1 } : DifRow) ∈
      (insert_batch_diff_error dif_c9 [] [(3, "boom")]).1 ∧
    (3, to_b64 "boom") ∈ (insert_batch_diff_error dif_c9 [] [(3, "boom")]).2 := by
  refine ⟨?_, ?_⟩
  · exact (c9_record_errors_spec dif_c9 [] [(3, "boom")] 0).1
      { key := 3, key_a := 0, key_b := 1, dif := -1, success := -1,
        block_a := 0, block_b := 0, block_key := 1 } (by decide) (by decide)
  · exact (c9_record_errors_spec dif_c9 [] [(3, "boom")] 0).2.1 (3, "boom") (by decide)

/-! ## C10 — cluster query on empty and non-empty selections -/

/-- Every cluster emitted by the accumulation loop of `get_cluster` carries a
non-empty member list, provided the running accumulator is non-empty. -/
theorem gather_clusters_members (group_a : Bool) :
    ∀ (rows : List (String × String × ℚ)) (head : String)
      (acc : List (String × String × ℚ)), acc ≠ [] →
      ∀ c ∈ gather_clusters group_a head acc rows, c.2 ≠ [] := by
  intro rows
  induction rows with
  | nil =>
    intro head acc hacc c hc
    simp only [gather_clusters, List.mem_singleton] at hc
    subst hc
    simpa using hacc
  | cons r rest ih =>
    intro head acc hacc c hc
    simp only [gather_clusters] at hc
    by_cases hh : cluster_head group_a r == head
    · rw [if_pos hh] at hc
      exact ih head (acc ++ [r]) (by simp) c hc
    · rw [if_neg hh] at hc
      rcases List.mem_cons.mp hc with rfl | hc'
      · simpa using hacc
      · exact ih (cluster_head group_a r) [r] (by simp) c hc'

/-- C10: if no pair row has `success = 1` and `dif` below `delta`, the cluster
query yields no clusters at all; and every cluster it does yield contains at
least one member pair. -/
theorem c10_get_cluster_spec (dif_tbl : List DifRow) (dir_tbl : List FileRow)
    (delta : ℚ) (group_a : Bool) :
    ((∀ d ∈ dif_tbl, ¬(d.success = 1 ∧ d.dif < delta)) →
      get_cluster dif_tbl dir_tbl delta group_a = []) ∧
    (∀ c ∈ get_cluster dif_tbl dir_tbl delta group_a, c.2 ≠ []) := by
  constructor
  · intro h
    have hfilter : dup_rows dif_tbl delta = [] := by
      rw [dup_rows, List.filter_eq_nil_iff]
      intro d hd
      simp only [Bool.and_eq_true, beq_iff_eq, decide_eq_true_eq, not_and]
      intro hdif hsucc
      exact h d hd ⟨hsucc, hdif⟩
    have hrows : cluster_rows dif_tbl dir_tbl delta group_a = [] := by
      rw [cluster_rows, hfilter]
      rfl
    rw [get_cluster, hrows]
  · intro c hc
    rw [get_cluster] at hc
    rcases hrows : cluster_rows dif_tbl dir_tbl delta group_a with _ | ⟨r, rest⟩
    · rw [hrows] at hc
      simp at hc
    · rw [hrows] at hc
      exact gather_clusters_members group_a rest (cluster_head group_a r) [r] (by simp) c hc

/-- A pair row whose difference (5) is not below the witness threshold (1). -/
def dif_c10 : List DifRow :=
  [{ key := 1, key_a := 0, key_b := 1, dif := 5, success := 1,
     block_a := 0, block_b := 0, block_key := 1 }]

theorem c10_witness :
    (∀ d ∈ dif_c10, ¬(d.success = 1 ∧ d.dif < 1)) ∧
    get_cluster dif_c10 [] 1 true = [] :=
  ⟨by decide, (c10_get_cluster_spec dif_c10 [] 1 true).1 (by decide)⟩

/-! ## C8 — preprocessing batch selection -/

/-- The selection of `batch_of_preprocessing_args`. -/
def preprocess_sel (tbl : List FileRow) (n : Nat) : List FileRow :=
  (tbl.filter (fun r => r.success == -1)).take n

theorem batch_pre_fst (tbl : List FileRow) (n : Nat) :
    (batch_of_preprocessing_args tbl n).1 =
      (preprocess_sel tbl n).map (fun r => (r.key, r.path)) := rfl

theorem batch_pre_snd (tbl : List FileRow) (n : Nat) :
    (batch_of_preprocessing_args tbl n).2 =
      tbl.map (fun r =>
        if ((preprocess_sel tbl n).map (fun r => r.key)).contains r.key then
          { r with success := -2 } else r) := rfl

/-- The task keys returned are the keys of the selection. -/
theorem batch_pre_task_keys (tbl : List FileRow) (n : Nat) :
    (batch_of_preprocessing_args tbl n).1.map (fun t => t.1) =
      (preprocess_sel tbl n).map (fun r => r.key) := by
  rw [batch_pre_fst, List.map_map]
  rfl

/-- Selected rows come from the table and are UNPROCESSED. -/
theorem preprocess_sel_mem {tbl : List FileRow} {n : Nat} {r : FileRow}
    (h : r ∈ preprocess_sel tbl n) : r ∈ tbl ∧ r.success = -1 := by
  have h' := List.take_subset n _ h
  have h2 := List.mem_filter.mp h'
  exact ⟨h2.1, by simpa using h2.2⟩

/-- C8: `take_preprocess_batch(n)` returns at most `n` tasks, all drawn from
UNPROCESSED rows; positionally, exactly the rows whose key is among the
returned task keys are flipped (each from `-1` to `-2`), every other row is
unchanged; and the task keys of a subsequent call are disjoint from those of
the first. -/
theorem c8_batch_of_preprocessing_args_spec (tbl : List FileRow) (n : Nat)
    (hnd : (tbl.map FileRow.key).Nodup) :
    (batch_of_preprocessing_args tbl n).1.length ≤ n ∧
    (∀ t ∈ (batch_of_preprocessing_args tbl n).1,
      ∃ r ∈ tbl, r.key = t.1 ∧ r.path = t.2 ∧ r.success = -1) ∧
    (batch_of_preprocessing_args tbl n).2.length = tbl.length ∧
    (∀ i (hi : i < tbl.length) (hi2 : i < (batch_of_preprocessing_args tbl n).2.length),
      (tbl[i].key ∈ (batch_of_preprocessing_args tbl n).1.map (fun t => t.1) →
        (batch_of_preprocessing_args tbl n).2[i] = { tbl[i] with success := -2 } ∧
        tbl[i].success = -1) ∧
      (tbl[i].key ∉ (batch_of_preprocessing_args tbl n).1.map (fun t => t.1) →
        (batch_of_preprocessing_args tbl n).2[i] = tbl[i])) ∧
    (∀ m k,
      k ∈ (batch_of_preprocessing_args (batch_of_preprocessing_args tbl n).2 m).1.map
        (fun t => t.1) →
      k ∉ (batch_of_preprocessing_args tbl n).1.map (fun t => t.1)) := by
  refine ⟨?_, ?_, ?_, ?_, ?_⟩
  · rw [batch_pre_fst, List.length_map]
    exact List.length_take_le n _
  · intro t ht
    rw [batch_pre_fst] at ht
    obtain ⟨r, hr, hrt⟩ := List.mem_map.mp ht
    obtain ⟨hrtbl, hrsucc⟩ := preprocess_sel_mem hr
    exact ⟨r, hrtbl, by rw [← hrt], by rw [← hrt], hrsucc⟩
  · rw [batch_pre_snd, List.length_map]
  · intro i hi hi2
    have hget : (batch_of_preprocessing_args tbl n).2[i] =
        (if ((preprocess_sel tbl n).map (fun r => r.key)).contains tbl[i].key then
          { tbl[i] with success := -2 } else tbl[i]) := by
      have h1 := List.getElem_of_eq (batch_pre_snd tbl n) hi2
      rw [h1]
      exact List.getElem_map _
    constructor
    · intro hmem
      rw [batch_pre_task_keys] at hmem
      have hcont : ((preprocess_sel tbl n).map (fun r => r.key)).contains tbl[i].key = true := by
        simp [hmem]
      refine ⟨by rw [hget, hcont, if_pos rfl], ?_⟩
      obtain ⟨r', hr', hrk⟩ := List.mem_map.mp hmem
      obtain ⟨hrtbl, hrsucc⟩ := preprocess_sel_mem hr'
      have : r' = tbl[i] :=
        List.inj_on_of_nodup_map hnd hrtbl (List.getElem_mem hi) hrk
      rw [← this]
      exact hrsucc
    · intro hmem
      rw [batch_pre_task_keys] at hmem
      have hcont : ((preprocess_sel tbl n).map (fun r => r.key)).contains tbl[i].key = false := by
        simpa using hmem
      rw [hget, hcont]
      simp
  · intro m k hk
    rw [batch_pre_task_keys] at hk
    obtain ⟨r2, hr2, hr2k⟩ := List.mem_map.mp hk
    obtain ⟨hr2tbl, hr2succ⟩ := preprocess_sel_mem hr2
    rw [batch_pre_snd] at hr2tbl
    obtain ⟨r, _hr, hfr⟩ := List.mem_map.mp hr2tbl
    rcases hcont : ((preprocess_sel tbl n).map (fun r => r.key)).contains r.key with _ | _
    · rw [hcont] at hfr
      simp only [Bool.false_eq_true, if_false] at hfr
      subst hfr
      intro hmem
      rw [batch_pre_task_keys] at hmem
      rw [hr2k] at hcont
      have : ((preprocess_sel tbl n).map (fun r => r.key)).contains k = true := by
        simp [hmem]
      rw [this] at hcont
      exact absurd hcont (by simp)
    · rw [hcont, if_pos rfl] at hfr
      have : r2.success = -2 := by rw [← hfr]
      rw [this] at hr2succ
      exact absurd hr2succ (by decide)

/-- Concrete two-row catalog for the C8 witness. -/
def tbl_c8 : List FileRow :=
  [{ key := 0, path := "a/x", filename := "x" },
   { key := 1, path := "a/y", filename := "y" }]

theorem c8_witness :
    (tbl_c8.map FileRow.key).Nodup ∧ (batch_of_preprocessing_args tbl_c8 1).1.length ≤ 1 :=
  ⟨by decide, (c8_batch_of_preprocessing_args_spec tbl_c8 1 (by decide)).1⟩

/-! ## C2 — pair coverage of the planner -/

theorem sum_map_add_nat {α : Type} (f g : α → Nat) (l : List α) :
    (l.map (fun a => f a + g a)).sum = (l.map f).sum + (l.map g).sum := by
  induction l with
  | nil => rfl
  | cons a t ih => simp only [List.map_cons, List.sum_cons, ih]; omega

theorem sum_map_indicator {α : Type} (p : α → Bool) (l : List α) :
    (l.map (fun a => if p a then 1 else 0)).sum = l.countP p := by
  induction l with
  | nil => rfl
  | cons a t ih => simp only [List.map_cons, List.sum_cons, List.countP_cons, ih]; omega

/-- Keys distinct from `x` fall strictly on one side of it. -/
theorem countP_lt_add_gt (x : Nat) :
    ∀ t : List Nat, x ∉ t →
      t.countP (fun b => decide (x < b)) + t.countP (fun b => decide (b < x)) = t.length := by
  intro t
  induction t with
  | nil => intro _; rfl
  | cons y rest ih =>
    intro hx
    have hxy : x ≠ y := fun he => hx (he ▸ List.mem_cons_self y rest)
    have hrest := ih (fun hm => hx (List.mem_cons_of_mem y hm))
    simp only [List.countP_cons, List.length_cons]
    rcases Nat.lt_trichotomy x y with h | h | h
    · have h1 : (decide (x < y) : Bool) = true := by simpa using h
      have h2 : (decide (y < x) : Bool) = false := by simpa using Nat.lt_asymm h
      rw [h1, h2]
      simp
      omega
    · exact absurd h hxy
    · have h1 : (decide (x < y) : Bool) = false := by simpa using Nat.lt_asymm h
      have h2 : (decide (y < x) : Bool) = true := by simpa using h
      rw [h1, h2]
      simp
      omega

/-- The triangular count: over a duplicate-free key list, summing for each
key the number of strictly larger keys gives `n * (n - 1) / 2`. -/
theorem sp_len_nodup :
    ∀ ks : List Nat, ks.Nodup →
      (ks.map (fun a => ks.countP (fun b => decide (a < b)))).sum * 2 =
        ks.length * (ks.length - 1) := by
  intro ks
  induction ks with
  | nil => intro _; rfl
  | cons x t ih =>
    intro hnd
    obtain ⟨hx, hndt⟩ := List.nodup_cons.mp hnd
    have htail : (t.map (fun a => (x :: t).countP (fun b => decide (a < b)))) =
        t.map (fun a => t.countP (fun b => decide (a < b)) + if decide (a < x) then 1 else 0) := by
      apply List.map_congr_left
      intro a _
      rw [List.countP_cons]
    have hhead : (x :: t).countP (fun b => decide (x < b)) =
        t.countP (fun b => decide (x < b)) := by
      rw [List.countP_cons]
      simp
    have hsum : ((x :: t).map (fun a => (x :: t).countP (fun b => decide (a < b)))).sum =
        t.countP (fun b => decide (x < b)) + t.countP (fun b => decide (b < x)) +
          (t.map (fun a => t.countP (fun b => decide (a < b)))).sum := by
      rw [List.map_cons, List.sum_cons, hhead, htail, sum_map_add_nat, sum_map_indicator]
      omega
    have hih := ih hndt
    have hcnt := countP_lt_add_gt x t hx
    have halg : (t.length + 1) * t.length = t.length * 2 + t.length * (t.length - 1) := by
      rcases Nat.eq_zero_or_pos t.length with h | h
      · rw [h]
      · calc (t.length + 1) * t.length = t.length * (t.length + 1) := Nat.mul_comm _ _
          _ = t.length * ((t.length - 1) + 2) := by congr 1; omega
          _ = t.length * (t.length - 1) + t.length * 2 := by rw [Nat.mul_add]
          _ = t.length * 2 + t.length * (t.length - 1) := Nat.add_comm _ _
    rw [hsum, List.length_cons]
    have hn1 : t.length + 1 - 1 = t.length := by omega
    rw [hn1, Nat.add_mul, hcnt, hih]
    exact halg.symm

/-- Number of rows of the populated dif table equals the number of candidate
pairs. -/
theorem prepopulate_diff_table_length (tbl : List FileRow) (bs : Nat) (hb : Bool) :
    (prepopulate_diff_table tbl bs hb).length = (prepop_pairs tbl hb).length := by
  simp [prepopulate_diff_table]

theorem prepop_pairs_true (tbl : List FileRow) :
    prepop_pairs tbl true = List.insertionSort (block_le true)
      ((tbl.filter (fun r => !r.dir_b)).flatMap
        (fun a => (tbl.filter (fun r => r.dir_b)).map (fun b => (a.key, b.key)))) := rfl

theorem prepop_pairs_false (tbl : List FileRow) :
    prepop_pairs tbl false = List.insertionSort (block_le true)
      (tbl.flatMap
        (fun a => (tbl.filter (fun b => a.key < b.key)).map (fun b => (a.key, b.key)))) := rfl

/-- Filtering on the raw `dir_b` flag agrees with filtering on `dir_b == b`. -/
theorem filter_dir_b_true (tbl : List FileRow) :
    tbl.filter (fun r => r.dir_b) = tbl.filter (fun r => r.dir_b == true) := by
  apply List.filter_congr
  intro r _
  cases r.dir_b <;> rfl

theorem filter_dir_b_false (tbl : List FileRow) :
    tbl.filter (fun r => !r.dir_b) = tbl.filter (fun r => r.dir_b == false) := by
  apply List.filter_congr
  intro r _
  cases r.dir_b <;> rfl

/-- C2, amended: `prepopulate_diff_table` does not filter on preprocessing
success; it ranges over ALL indexed files.  With two partitions it inserts
`|A| * |B|` rows (total partition sizes) and with one partition
`n * (n - 1) / 2` rows where `n` is the total file count — files with
`success = ERROR` contribute pair rows too. -/
theorem c2_prepopulate_pair_counts (tbl : List FileRow) (block_size : Nat)
    (hnd : (tbl.map FileRow.key).Nodup) :
    (prepopulate_diff_table tbl block_size true).length =
      count_dir tbl false * count_dir tbl true ∧
    (prepopulate_diff_table tbl block_size false).length =
      tbl.length * (tbl.length - 1) / 2 := by
  constructor
  · rw [prepopulate_diff_table_length, prepop_pairs_true,
      (List.perm_insertionSort (block_le true) _).length_eq, List.length_flatMap]
    calc ((tbl.filter (fun r => !r.dir_b)).map
          (fun a => ((tbl.filter (fun r => r.dir_b)).map (fun b => (a.key, b.key))).length)).sum
        = ((tbl.filter (fun r => !r.dir_b)).map
          (fun _ => (tbl.filter (fun r => r.dir_b)).length)).sum := by
          apply congrArg
          apply List.map_congr_left
          intro a _
          rw [List.length_map]
      _ = (List.replicate (tbl.filter (fun r => !r.dir_b)).length
            (tbl.filter (fun r => r.dir_b)).length).sum := by rw [List.map_const']
      _ = (tbl.filter (fun r => !r.dir_b)).length * (tbl.filter (fun r => r.dir_b)).length := by
          simp [List.sum_replicate, smul_eq_mul]
      _ = count_dir tbl false * count_dir tbl true := by
          rw [count_dir, count_dir, filter_dir_b_true, filter_dir_b_false]
  · have hlen : (prepopulate_diff_table tbl block_size false).length =
        ((tbl.map FileRow.key).map
          (fun a => (tbl.map FileRow.key).countP (fun b => decide (a < b)))).sum := by
      rw [prepopulate_diff_table_length, prepop_pairs_false,
        (List.perm_insertionSort (block_le true) _).length_eq, List.length_flatMap,
        List.map_map]
      apply congrArg
      apply List.map_congr_left
      intro a _
      simp only [Function.comp_apply]
      rw [List.length_map, ← List.countP_eq_length_filter, List.countP_map]
      rfl
    have h2 := sp_len_nodup (tbl.map FileRow.key) hnd
    rw [List.length_map] at h2
    rw [hlen]
    omega

/-- Catalog with one OK file and one ERROR file (single partition). -/
def tbl_c2 : List FileRow :=
  [{ key := 0, path := "a/x", filename := "x", success := 1, px := 4, py := 4 },
   { key := 1, path := "a/y", filename := "y", success := 0, error := some "ZGVjb2Rl" }]

/-- C2, counterexample: with one OK file and one ERROR file the claim demands
`1 * 0 / 2 = 0` pair rows, but the planner inserts one row — the pair of the
OK file with the ERROR file. -/
theorem c2_counterexample :
    (prepopulate_diff_table tbl_c2 1 false).length = 1 ∧
    (tbl_c2.filter (fun r => r.success == 1)).length = 1 := by
  refine ⟨rfl, rfl⟩

theorem c2_witness :
    (tbl_c2.map FileRow.key).Nodup ∧
    (prepopulate_diff_table tbl_c2 1 false).length = tbl_c2.length * (tbl_c2.length - 1) / 2 :=
  ⟨by decide, (c2_prepopulate_pair_counts tbl_c2 1 (by decide)).2⟩

/-! ## C3 — block assignment and dense block keys -/

theorem lex_le_total (a b : Int × Int) : lex_le a b ∨ lex_le b a := by
  obtain ⟨a1, a2⟩ := a
  obtain ⟨b1, b2⟩ := b
  simp only [lex_le]
  omega

theorem lex_le_trans {a b c : Int × Int} (h1 : lex_le a b) (h2 : lex_le b c) : lex_le a c := by
  obtain ⟨a1, a2⟩ := a
  obtain ⟨b1, b2⟩ := b
  obtain ⟨c1, c2⟩ := c
  simp only [lex_le] at h1 h2 ⊢
  omega

theorem lex_le_antisymm {a b : Int × Int} (h1 : lex_le a b) (h2 : lex_le b a) : a = b := by
  obtain ⟨a1, a2⟩ := a
  obtain ⟨b1, b2⟩ := b
  simp only [lex_le] at h1 h2
  simp only [Prod.mk.injEq]
  omega

theorem lex_le_asymm_iff_lt {a b : Int × Int} :
    lex_le a b ∧ ¬lex_le b a ↔ lex_lt a b := by
  obtain ⟨a1, a2⟩ := a
  obtain ⟨b1, b2⟩ := b
  simp only [lex_le, lex_lt]
  omega

theorem block_sort_key_inj (hb : Bool) {p q : Nat × Nat}
    (h : block_sort_key hb p = block_sort_key hb q) : p = q := by
  obtain ⟨p1, p2⟩ := p
  obtain ⟨q1, q2⟩ := q
  cases hb <;>
    (simp only [block_sort_key, Bool.false_eq_true, if_false, if_true,
       Prod.mk.injEq] at h
     simp only [Prod.mk.injEq]
     omega)

instance (hb : Bool) : IsTotal (Nat × Nat) (block_le hb) :=
  ⟨fun p q => lex_le_total (block_sort_key hb p) (block_sort_key hb q)⟩

instance (hb : Bool) : IsTrans (Nat × Nat) (block_le hb) :=
  ⟨fun _ _ _ h1 h2 => lex_le_trans h1 h2⟩

theorem block_le_antisymm (hb : Bool) {p q : Nat × Nat}
    (h1 : block_le hb p q) (h2 : block_le hb q p) : p = q :=
  block_sort_key_inj hb (lex_le_antisymm h1 h2)

/-- In a sorted duplicate-free list the position of an element equals the
number of list elements strictly before it in the order. -/
theorem tbl_idx_eq_countP {r : (Nat × Nat) → (Nat × Nat) → Prop} [DecidableRel r]
    (hanti : ∀ a b, r a b → r b a → a = b) :
    ∀ l : List (Nat × Nat), l.Sorted r → l.Nodup → ∀ x ∈ l,
      tbl_idx l x = l.countP (fun y => decide (r y x) && !decide (r x y)) := by
  intro l
  induction l with
  | nil => intro _ _ x hx; simp at hx
  | cons q rest ih =>
    intro hs hn x hx
    have hsq : ∀ y ∈ rest, r q y := List.rel_of_sorted_cons hs
    obtain ⟨hqnot, hnrest⟩ := List.nodup_cons.mp hn
    rcases List.mem_cons.mp hx with rfl | hxr
    · have hz : tbl_idx (x :: rest) x = 0 := by simp [tbl_idx]
      rw [hz]
      symm
      rw [List.countP_eq_zero]
      intro y hy
      rcases List.mem_cons.mp hy with rfl | hyr
      · simp
      · have h1 : r x y := hsq y hyr
        simp [h1]
    · have hq_ne : q ≠ x := fun he => hqnot (he ▸ hxr)
      simp only [tbl_idx, if_neg hq_ne]
      rw [List.countP_cons]
      have h1 : r q x := hsq x hxr
      have h2 : ¬r x q := fun h' => hq_ne (hanti q x h1 h')
      have hpredq : (decide (r q x) && !decide (r x q)) = true := by simp [h1, h2]
      rw [hpredq, if_pos rfl]
      have hih := ih hs.of_cons hnrest x hxr
      omega

/-- Pointwise bridge between the sort order's strict part and `lex_lt` of
the sort keys. -/
theorem block_pred_eq (hb : Bool) (x q : Nat × Nat) :
    (decide (block_le hb q x) && !decide (block_le hb x q)) =
      decide (lex_lt (block_sort_key hb q) (block_sort_key hb x)) := by
  rw [← decide_not, ← Bool.decide_and, decide_eq_decide]
  exact lex_le_asymm_iff_lt

/-- C3: for every populated pair row, `block_a = key_a / B`,
`block_b = (key_b - min_key_B) / B` (two partitions) or `key_b / B` (one),
and `block_key` is one more than the number of distinct block pairs strictly
preceding the row's block pair in the mode's order — row-major
(`ORDER BY block_a, block_b`) with two partitions, diagonal-major
(`ORDER BY (block_b - block_a), (block_b + block_a)`) with one: the dense
rank, counted from 1. -/
theorem c3_prepopulate_block_assignment (tbl : List FileRow) (block_size : Nat)
    (has_dir_b : Bool) :
    ∀ d ∈ prepopulate_diff_table tbl block_size has_dir_b,
      d.block_a = d.key_a / block_size ∧
      d.block_b = (if has_dir_b then (d.key_b - min_key_b tbl) / block_size
                   else d.key_b / block_size) ∧
      d.block_key = 1 +
        ((prepop_pairs tbl has_dir_b).map
            (block_of block_size (min_key_b tbl) has_dir_b)).dedup.countP
          (fun q => decide (lex_lt (block_sort_key has_dir_b q)
            (block_sort_key has_dir_b (d.block_a, d.block_b)))) := by
  intro d hd
  simp only [prepopulate_diff_table] at hd
  obtain ⟨⟨i, p⟩, hip, rfl⟩ := List.mem_map.mp hd
  have hp : p ∈ prepop_pairs tbl has_dir_b := (List.of_mem_zip hip).2
  refine ⟨rfl, rfl, ?_⟩
  have heta : ((block_of block_size (min_key_b tbl) has_dir_b p).1,
      (block_of block_size (min_key_b tbl) has_dir_b p).2) =
      block_of block_size (min_key_b tbl) has_dir_b p := rfl
  show tbl_idx (List.insertionSort (block_le has_dir_b)
      ((prepop_pairs tbl has_dir_b).map
        (block_of block_size (min_key_b tbl) has_dir_b)).dedup)
      (block_of block_size (min_key_b tbl) has_dir_b p) + 1 = _
  rw [heta]
  have hperm := List.perm_insertionSort (block_le has_dir_b)
    ((prepop_pairs tbl has_dir_b).map (block_of block_size (min_key_b tbl) has_dir_b)).dedup
  have hsorted := List.sorted_insertionSort (block_le has_dir_b)
    ((prepop_pairs tbl has_dir_b).map (block_of block_size (min_key_b tbl) has_dir_b)).dedup
  have hnodup := hperm.nodup_iff.mpr (List.nodup_dedup _)
  have hmem : block_of block_size (min_key_b tbl) has_dir_b p ∈
      List.insertionSort (block_le has_dir_b)
        ((prepop_pairs tbl has_dir_b).map
          (block_of block_size (min_key_b tbl) has_dir_b)).dedup :=
    (List.mem_insertionSort _).mpr (List.mem_dedup.mpr (List.mem_map_of_mem _ hp))
  rw [tbl_idx_eq_countP (fun a b h1 h2 => block_le_antisymm has_dir_b h1 h2)
    _ hsorted hnodup _ hmem]
  rw [funext (block_pred_eq has_dir_b (block_of block_size (min_key_b tbl) has_dir_b p))]
  rw [hperm.countP_eq]
  omega

/-- Two-file single-partition catalog for the C3 witness. -/
def tbl_c3 : List FileRow :=
  [{ key := 0, path := "a/x", filename := "x", success := 1, px := 4, py := 4 },
   { key := 1, path := "a/y", filename := "y", success := 1, px := 4, py := 4 }]

/-- The single pair row the planner produces for `tbl_c3` with block size 1. -/
def d3w : DifRow :=
  { key := 1, key_a := 0, key_b := 1, dif := -1, success := -1,
    block_a := 0, block_b := 1, block_key := 1 }

theorem c3_witness :
    d3w ∈ prepopulate_diff_table tbl_c3 1 false ∧
    (d3w.block_a = d3w.key_a / 1 ∧
     d3w.block_b = (if false then (d3w.key_b - min_key_b tbl_c3) / 1 else d3w.key_b / 1) ∧
     d3w.block_key = 1 +
       ((prepop_pairs tbl_c3 false).map (block_of 1 (min_key_b tbl_c3) false)).dedup.countP
         (fun q => decide (lex_lt (block_sort_key false q)
           (block_sort_key false (d3w.block_a, d3w.block_b))))) :=
  ⟨by decide, c3_prepopulate_block_assignment tbl_c3 1 false d3w (by decide)⟩

end FastDifPy
